import Mathlib

/-!
Verification development for JABS (Just Another Backup Script, `jabs.py`).

The definitions below are a shallow embedding of the parts of `jabs.py`
relevant to scheduling, Hanoi rotation, hard-link ancestor discovery,
subprocess outcome classification, per-set execution and the PID-file lock.
Python strings and byte strings are modelled as `List Char`; file system
effects and subprocess results are supplied by explicit oracles.
-/

namespace JabsModel

/-- Python strings (and byte strings) are modelled as lists of characters. -/
abbrev Str := List Char

/-- Boolean test that `n` is a leading segment of the second list. -/
def pfx : Str → Str → Bool
  | [], _ => true
  | _ :: _, [] => false
  | a :: xs, b :: ys => a == b && pfx xs ys

/-- Boolean substring test: `hasSub n l` holds iff `n` occurs contiguously in
`l`. This models Python's `needle in hay` on strings and on bytes. -/
def hasSub (n : Str) : Str → Bool
  | [] => n.isEmpty
  | a :: rest => pfx n (a :: rest) || hasSub n rest

/-- Fuel-indexed worker for `replaceAll`: scan left to right; on a match
of the (non-empty) pattern emit the replacement and skip the matched
characters. `s.length` fuel always suffices. -/
def replaceAllGo (n r : Str) : Nat → Str → Str
  | _, [] => []
  | 0, a :: rest => a :: rest
  | fuel + 1, a :: rest =>
    if n ≠ [] ∧ pfx n (a :: rest) = true then
      r ++ replaceAllGo n r fuel (rest.drop (n.length - 1))
    else a :: replaceAllGo n r fuel rest

/-- Replace every occurrence of `n` (scanned left to right, non-overlapping)
by `r`, as `re.sub` does for a literal pattern such as `{setname}` or
`{dirname}` (see `rpat`/`rdir` in jabs.py, lines 68-69). -/
def replaceAll (n r s : Str) : Str := replaceAllGo n r s.length s

/-- The fuel argument is irrelevant as long as it covers the input. -/
theorem replaceAllGo_fuel (n r : Str) :
    ∀ (f₁ f₂ : Nat) (s : Str), s.length ≤ f₁ → s.length ≤ f₂ →
      replaceAllGo n r f₁ s = replaceAllGo n r f₂ s := by
  intro f₁
  induction f₁ with
  | zero =>
    intro f₂ s h1 _
    have : s = [] := List.eq_nil_of_length_eq_zero (Nat.le_zero.mp h1)
    subst this
    cases f₂ <;> rfl
  | succ f ih =>
    intro f₂ s h1 h2
    cases s with
    | nil => cases f₂ <;> rfl
    | cons a rest =>
      cases f₂ with
      | zero => simp at h2
      | succ f2 =>
        have hr : rest.length ≤ f := by simpa using h1
        have hr2 : rest.length ≤ f2 := by simpa using h2
        simp only [replaceAllGo]
        split
        · have hd1 : (rest.drop (n.length - 1)).length ≤ f := by
            simp only [List.length_drop]; omega
          have hd2 : (rest.drop (n.length - 1)).length ≤ f2 := by
            simp only [List.length_drop]; omega
          rw [ih f2 _ hd1 hd2]
        · rw [ih f2 rest hr hr2]

/-- `replaceAll` on the empty string. -/
theorem replaceAll_nil (n r : Str) : replaceAll n r [] = [] := rfl

/-- One unfolding step of `replaceAll`. -/
theorem replaceAll_cons (n r : Str) (a : Char) (rest : Str) :
    replaceAll n r (a :: rest) =
      if n ≠ [] ∧ pfx n (a :: rest) = true then
        r ++ replaceAll n r (rest.drop (n.length - 1))
      else a :: replaceAll n r rest := by
  show replaceAllGo n r (rest.length + 1) (a :: rest) = _
  simp only [replaceAllGo]
  split
  · rw [replaceAllGo_fuel n r rest.length (rest.drop (n.length - 1)).length _
      (by simp) (Nat.le_refl _)]
    rfl
  · rfl

/-- ASCII lower-casing of a string, modelling `str.lower()` on set names. -/
def lowerStr (s : Str) : Str := s.map Char.toLower

/-- Python whitespace characters recognised by `str.strip()`. -/
def isPySpace (c : Char) : Bool :=
  c == ' ' || c == '\t' || c == '\n' || c == '\r' || c == '\x0b' || c == '\x0c'

/-- `str.strip()`: remove leading and trailing whitespace. -/
def pyStrip (s : Str) : Str :=
  ((s.dropWhile isPySpace).reverse.dropWhile isPySpace).reverse

/-- Split a string at every occurrence of the character `c`, keeping empty
fragments, as Python's `str.split(c)` does for a one-character separator. -/
def splitOnChar (c : Char) : Str → List Str
  | [] => [[]]
  | a :: rest =>
    let r := splitOnChar c rest
    if a == c then [] :: r
    else
      match r with
      | [] => [[a]]
      | h :: t => (a :: h) :: t

/-- `bytes.splitlines()` for newline-terminated output: split at `'\n'` and
drop the trailing empty fragment produced by a final newline. An empty byte
string yields no lines. (rsync stderr uses `'\n'` separators only.) -/
def pySplitlines (s : Str) : List Str :=
  if s = [] then []
  else
    let parts := splitOnChar '\n' s
    if parts.getLast? = some [] then parts.dropLast else parts

/-- The retry marker rsync prints on transient errors (jabs.py line 810). -/
def wtaTok : Str := "(will try again)".toList

/-- Substitution token for the set name (jabs.py line 68). -/
def setnameTok : Str := "{setname}".toList

/-- Substitution token for the current backup-list entry (jabs.py line 69). -/
def dirnameTok : Str := "{dirname}".toList

/-! ## Subprocess outcome classification (jabs.py lines 798-819)

After `ret = p.wait()` the code clears `setsuccess` when `ret != 0`; then, if
captured stderr is non-empty, it scans its lines and clears `setsuccess`
unless every line contains `(will try again)`. -/

/-- `badoutput` computation of lines 808-813: some stderr line does not
contain the retry marker. -/
def stderrBadOutput (lines : List Str) : Bool :=
  lines.any (fun l => !(hasSub wtaTok l))

/-- Success-flag update for one transfer subprocess, from the raw captured
stderr byte string (lines 798-819). -/
def analyzeTransfer (setsuccess : Bool) (ret : Int) (stderr : Str) : Bool :=
  let s1 := if ret ≠ 0 then false else setsuccess
  if stderr.length ≠ 0 then
    if stderrBadOutput (pySplitlines stderr) then false else s1
  else s1

/-! ## COMPRESSLOG handling (jabs.py lines 352, 746, 784-787, 920-923)

`BackupSet.__init__` reads `COMPRESSLOG` with `config.getstr(..., True)`:
the configured value is returned as a stripped *string* while an absent key
yields the Python boolean default `True`. All later uses are truthiness
tests (`if s.compresslog:`). -/

/-- The dynamic type of `self.compresslog`: a configured (stripped) string,
or the boolean default when the key is absent. -/
inductive CompressVal where
  | strVal (s : Str)
  | boolVal (b : Bool)
  deriving DecidableEq

/-- `config.getstr('COMPRESSLOG', name, True)`: a present value is stripped
and kept as a string; an absent key falls back to the default `True`. -/
def compresslogOfConfig (cfg : Option Str) : CompressVal :=
  match cfg with
  | some v => .strVal (pyStrip v)
  | none => .boolVal true

/-- Python truthiness of `self.compresslog`: a string is truthy iff
non-empty; a boolean is itself. -/
def pyTruthyCompress : CompressVal → Bool
  | .strVal s => !s.isEmpty
  | .boolVal b => b

/-! ## Hanoi rotation (jabs.py lines 648-660)

`today = (starttime.date() - s.hanoiday).days + 1`; then `i` walks from
`s.hanoi` down to `0` and the first `i` with `today % 2**i == 0` yields
suffix `chr(i+65)`; if the loop ended without a break the suffix would stay
empty. Dates are modelled by their proleptic-Gregorian ordinals. -/

/-- The while-loop of lines 652-657, walking `i` downwards from `hanoi`. -/
def hanoiSufAux (today : Int) : Nat → Str
  | 0 => if today % (2 ^ (0 : Nat) : Int) = 0 then [Char.ofNat 65] else []
  | i + 1 =>
    if today % (2 ^ (i + 1) : Int) = 0 then [Char.ofNat (i + 1 + 65)]
    else hanoiSufAux today i

/-- Hanoi suffix for a set: empty when `hanoi == 0` (the block of lines
650-660 is skipped), else the result of the downward scan. -/
def hanoiSuffix (hanoi : Nat) (today : Int) : Str :=
  if hanoi > 0 then hanoiSufAux today hanoi else []

/-- Leap year in the proleptic Gregorian calendar (as `datetime.date`). -/
def isLeap (y : Nat) : Bool :=
  y % 4 == 0 && (y % 100 != 0 || y % 400 == 0)

/-- Cumulative day count of the months preceding month `m` of year `y`. -/
def daysBeforeMonth (y m : Nat) : Nat :=
  (([31, if isLeap y then 29 else 28, 31, 30, 31, 30,
     31, 31, 30, 31, 30, 31] : List Nat).take (m - 1)).foldl (· + ·) 0

/-- `datetime.date(y, m, d).toordinal()`: day number counting from
0001-01-01 = 1 in the proleptic Gregorian calendar. -/
def dateOrdinal (y m d : Nat) : Nat :=
  (y - 1) * 365 + (y - 1) / 4 - (y - 1) / 100 + (y - 1) / 400
    + daysBeforeMonth y m + d

/-- `(starttime.date() - s.hanoiday).days + 1` on date ordinals. -/
def hanoiDayNumber (firstOrd todayOrd : Nat) : Int :=
  (todayOrd : Int) - (firstOrd : Int) + 1

/-- The pair (day number, suffix) the Hanoi block computes for a set with
`hanoi = sets`, epoch ordinal `firstOrd`, run-day ordinal `todayOrd`. -/
def hanoiPair (sets : Nat) (firstOrd todayOrd : Nat) : Int × Str :=
  (hanoiDayNumber firstOrd todayOrd,
   hanoiSuffix sets (hanoiDayNumber firstOrd todayOrd))

/-! ## Interval filter of the scheduler (jabs.py lines 514-547)

Without `--force`, the loop appends a set to `newsets` only inside the
branch `if s.interval and s.interval > timedelta(seconds=0):`; a set whose
interval is unset (`None`) or zero is never appended, hence dropped. The
cache file content is modelled as `Option (Option Int)`: `none` for a
missing file, `some none` for unparseable content, `some (some ts)` for a
stored timestamp; missing and unparseable both fall back to epoch 0
(lines 526-536). -/

/-- `lastdone` read from the per-set cache file (lines 526-536). -/
def intervalLastdone (cache : Option (Option Int)) : Int :=
  match cache with
  | none => 0
  | some none => 0
  | some (some t) => t

/-- One iteration of the interval-filter loop body: `true` iff the set is
appended to `newsets` (lines 517-544). `interval` is the set's optional
`timedelta`, in seconds; `now` is `starttime`. -/
def intervalKeep (interval : Option Int) (cache : Option (Option Int))
    (now : Int) : Bool :=
  match interval with
  | none => false
  | some i =>
    if i ≠ 0 ∧ 0 < i then
      if intervalLastdone cache + i > now then false else true
    else false

/-! ## Remote-path detection (jabs.py lines 70, 354-355)

`risremote = re.compile(r'(.*@.*):{1,2}(.*)')`, used with `re.match`. With
greedy backtracking the match succeeds iff some `':'` is preceded by a
`'@'`; group 1 is everything before the *last* such colon and group 2
everything after it (a second colon can never directly follow the last
qualifying colon, so `:{1,2}` always consumes exactly one character there).
Assumes the path contains no newline (`.` does not match `'\n'`). -/

/-- Index of the last `':'` in `s` that has a `'@'` somewhere before it. -/
def lastColonAfterAt (s : Str) : Option Nat :=
  (((List.range s.length).filter (fun i =>
    (s.getD i ' ' == ':')
      && ((List.range i).any (fun j => s.getD j ' ' == '@')))).getLast?)

/-- `risremote.match(p)`: `some (group1, group2)` on a match, else `none`. -/
def risremoteMatch (s : Str) : Option (Str × Str) :=
  match lastColonAfterAt s with
  | none => none
  | some i => some (s.take i, s.drop (i + 1))

/-! ## `os.path.split` (posixpath semantics, used at lines 670 and 688) -/

/-- Index one past the last `'/'` of `p`, or `0` when there is none. -/
def rfindSlashEnd (p : Str) : Nat :=
  match p.reverse.findIdx? (· == '/') with
  | none => 0
  | some k => p.length - k

/-- `os.path.split(p)`: split after the last slash; strip trailing slashes
from the head unless it consists only of slashes. -/
def osPathSplit (p : Str) : Str × Str :=
  let i := rfindSlashEnd p
  let head := p.take i
  let tail := p.drop i
  if head ≠ [] ∧ ¬ head.all (· == '/') then
    (head.reverse.dropWhile (· == '/') |>.reverse, tail)
  else (head, tail)

/-- `re.sub(r'(\/|\.)', '_', s)` (line 745): log-file slug of a name. -/
def slugify (s : Str) : Str :=
  s.map (fun c => if c == '/' || c == '.' then '_' else c)

/-- `str(i)` for the ionice/nice levels. -/
def intStr (i : Int) : Str := (toString i).toList

/-! ## Local hard-link ancestor discovery (jabs.py lines 687-705)

For a local destination, `(path, base) = os.path.split(s.dst)`; each child
`d` of `path` is accepted when
`( d == base or d[:len(base)] + s.sep == base + s.sep )` and
`S_ISDIR(os.lstat(path+"/"+d)[ST_MODE])`; the accepted entries are sorted
by modification time, newest first, and every entry other than
`base + s.sep + hanoisuf` contributes `path + "/" + d` to `plink`. -/

/-- A directory entry as observed by `os.listdir` plus `os.lstat`:
`isDir` is `S_ISDIR` of the lstat mode (symlinks are not followed),
`mtime` its modification time. -/
structure DirEntry where
  name : Str
  isDir : Bool
  mtime : Int
  deriving DecidableEq

/-- Ordering of `sorted(psets, key=lambda p: p[1], reverse=True)`:
newest first. -/
def ageR : DirEntry → DirEntry → Prop := fun a b => b.mtime ≤ a.mtime

instance : DecidableRel ageR := fun a b => Int.decLe b.mtime a.mtime

instance : IsTotal DirEntry ageR := ⟨fun a b => Int.le_total b.mtime a.mtime⟩

instance : IsTrans DirEntry ageR :=
  ⟨fun _ _ _ h1 h2 => Int.le_trans h2 h1⟩

/-- The name filter of line 692, written exactly as in the source. -/
def psetNameOk (base sep : Str) (d : Str) : Bool :=
  d == base || (d.take base.length ++ sep == base ++ sep)

/-- `psets` after the filter and the mtime sort (lines 690-695). Python's
`sorted` is a stable sort; a stable sort under a total preorder is unique,
so the stable `insertionSort` produces the same list. -/
def localPsets (base sep : Str) (dirs : List DirEntry) : List DirEntry :=
  (dirs.filter (fun d => psetNameOk base sep d.name && d.isDir)).insertionSort
    ageR

/-- `plink` built from `psets` (lines 697-700): drop the entry named
`base + sep + hanoisuf`, prepend `path + "/"` to the rest. -/
def plinkLocal (path base sep hanoisuf : Str) (dirs : List DirEntry) :
    List Str :=
  ((localPsets base sep dirs).filter
      (fun p => p.name ≠ base ++ sep ++ hanoisuf)).map
    (fun p => path ++ ['/'] ++ p.name)

/-! ## Python dynamic values for the remote listing (jabs.py lines 666-686)

`p.communicate()` on a `Popen` opened without text mode returns *bytes*;
line 679 then evaluates `stdout.split('\n')` with a *str* separator, which
in Python 3 raises `TypeError: a bytes-like object is required, not 'str'`.
The dynamic typing is modelled explicitly. -/

/-- A Python value that is either a `str` or a `bytes` object. -/
inductive PyVal where
  | pstr (s : Str)
  | pbytes (s : Str)
  deriving DecidableEq

/-- Error message class of the raised exception. -/
def typeErrorS : Str := "TypeError".toList

/-- `v.split(sep)` for a one-character separator: defined when receiver and
separator have the same dynamic type, a `TypeError` otherwise. -/
def pySplitVal : PyVal → PyVal → Except Str (List Str)
  | .pstr a, .pstr b => .ok (match b with | [c] => splitOnChar c a | _ => [a])
  | .pbytes a, .pbytes b => .ok (match b with | [c] => splitOnChar c a | _ => [a])
  | _, _ => .error typeErrorS

/-! ## Backup set (relevant fields of `BackupSet.__init__`, lines 313-355) -/

/-- The per-set configuration knobs used by the executor. `interval` is in
seconds (`none` when `INTERVAL` is absent); `runtime` is the daily window
as seconds of day; `skiponpreerror` is the truthiness of the configured
value (the default `None` is falsy); `mailto` is `none` when `MAILTO` is
absent; `hanoiday` is a date ordinal. -/
structure BSet where
  name : Str
  program : Str
  backuplist : List Str
  deletelist : List Str
  ionice : Int
  nice : Int
  rsync_opts : List Str
  rclone_opts : List Str
  src : Str
  dst : Str
  sleepSecs : Int
  hanoi : Nat
  hanoiday : Nat
  hardlink : Bool
  checkdst : Bool
  sep : Str
  pri : Int
  datefile : Option Str
  interval : Option Int
  ping : Bool
  runtime : Nat × Nat
  mailto : Option (List Str)
  disabled : Bool
  pre : List Str
  skiponpreerror : Bool
  compresslog : CompressVal

/-! ## Command assembly for one backup-list entry (jabs.py lines 751-772) -/

/-- Build the argv for entry `d`: optional `ionice`/`nice` wrappers, the
program, the option list with only `{setname}` substituted (line 759), one
`--link-dest=` per ancestor, the source with `{dirname}` substituted
(unless `d` is the generated datefile), and the destination (with Hanoi
suffix) with `{dirname}` substituted. -/
def buildCmd (s : BSet) (plink : List Str) (hanoisuf : Str)
    (tmpfile : Option Str) (d : Str) : List Str :=
  let cmdi : List Str := ["ionice".toList, "-c".toList, intStr s.ionice]
  let cmdn : List Str := ["nice".toList, "-n".toList, intStr s.nice]
  let opts := if s.program == "rsync".toList then s.rsync_opts else s.rclone_opts
  let srcArg :=
    match tmpfile with
    | some tf => if tf ≠ [] ∧ d = tf then tf else replaceAll dirnameTok d s.src
    | none => replaceAll dirnameTok d s.src
  let dstArg :=
    replaceAll dirnameTok d
      (s.dst ++ (if hanoisuf.length > 0 then s.sep ++ hanoisuf else []))
  let cmdr := s.program
      :: (opts.map (fun x => replaceAll setnameTok (lowerStr s.name) x))
      ++ plink.map (fun pl => "--link-dest=".toList ++ pl)
      ++ [srcArg, dstArg]
  (if s.ionice ≠ 0 then cmdi else []) ++ (if s.nice ≠ 0 then cmdn else []) ++ cmdr

/-! ## Per-set execution (the body of the `for s in sets:` loop,
jabs.py lines 605-956)

Side effects are recorded as an event list; external observations
(subprocess exit codes, stat results, directory listings) come from an
`Oracle`. Uncaught Python exceptions surface as an `exn` outcome and
abort the remaining sets, mirroring the absence of any try/except around
the loop. -/

/-- Observable side effects of one set execution, in program order. -/
inductive Ev where
  | mountWarnAlready (path : Str)
  | mountRun (path : Str) (ret : Int)
  | datefileWrite (path : Str)
  | hanoiInfo (day : Int) (suf : Str)
  | hardlinkWarnUnsupported
  | sshList (target : Str) (ret : Int)
  | preCmdRun (cmd : Str) (ret : Int)
  | dstMissingWarn
  | transferRun (argv : List Str) (logfile : Str) (gz : Bool) (ret : Int)
  | transferPlan (argv : List Str)
  | sleepSecs (n : Int)
  | delTree (path : Str)
  | cacheWrite (setname : Str) (ts : Int)
  | symlinkDelete (path : Str)
  | symlinkCreate (link : Str) (target : Str)
  | symlinkWarn (path : Str)
  | umountRun (path : Str) (ret : Int)
  | mailSend (subject : Str) (attachments : List (Str × Bool))
  | unlinkLog (path : Str)
  | datefileUnlink (path : Str)
  | rmdirTmp (path : Str)
  deriving DecidableEq

/-- External observations consumed while executing one set. `dstExists` is
`none` when `os.path.exists(s.dst)` raises (lines 737-739); `cacheContent`
is the interval-cache file as in `intervalKeep`; `transferRet` and
`transferStderr` give the transfer subprocess result per backup-list
entry; `mount` fields describe `os.path.ismount` and the mount/umount
subprocess results. -/
structure Oracle where
  tmpdir : Str
  mount1Mounted : Bool
  mountRet : Int
  sshStdout : Str
  sshRet : Int
  localDirs : List DirEntry
  preRet : Str → Int
  dstExists : Option Bool
  transferRet : Str → Int
  transferStderr : Str → Str
  delExistsDir : Str → Bool
  dstExists1 : Bool
  dstIsLink : Bool
  dstExists2 : Bool
  umountMounted : Bool
  umountRet : Int
  pingUp : Bool
  cacheContent : Option (Option Int)

/-- Result of running one set: fell through the whole body (`done`, with
the final `setsuccess`), `continue`d out at the pre phase (line 728) or at
the destination check (lines 736, 739), or raised. -/
inductive SetOutcome where
  | done (evs : List Ev) (success : Bool)
  | skippedPre (evs : List Ev)
  | skippedDst (evs : List Ev)
  | exn (evs : List Ev) (msg : Str)
  deriving DecidableEq

/-- Mount phase (lines 621-632). -/
def mountPhase (o : Oracle) (mnt : Option Str) : List Ev :=
  match mnt with
  | none => []
  | some m => if o.mount1Mounted then [.mountWarnAlready m] else [.mountRun m o.mountRet]

/-- Datefile phase (lines 634-646): returns the events, the effective
backup list and the created temp file. In safe mode nothing is created. -/
def datefilePhase (safe : Bool) (s : BSet) (o : Oracle) :
    List Ev × List Str × Option Str :=
  match s.datefile with
  | none => ([], s.backuplist, none)
  | some df =>
    if safe then ([], s.backuplist, none)
    else
      let tf := o.tmpdir ++ ['/'] ++ df
      ([.datefileWrite tf], s.backuplist ++ [tf], some tf)

/-- NameError message for line 664, which mentions the variable `stderr`
that is only bound when a mount subprocess actually ran. -/
def nameErrorS : Str := "NameError".toList

/-- Hard-link ancestor phase (lines 662-708). `stderrBound` records
whether the mount phase bound the Python variable `stderr`. The remote
branch evaluates `stdout.split('\n')` on the bytes returned by
`communicate()` with a str separator, raising `TypeError` (line 679); the
(unreachable) parse of the listing after it is therefore not modelled. -/
def hardlinkPhase (s : BSet) (o : Oracle) (stderrBound : Bool)
    (hanoisuf : Str) : Except (List Ev × Str) (List Ev × List Str) :=
  if s.hardlink ∧ s.program ≠ "rsync".toList then
    if stderrBound then .ok ([.hardlinkWarnUnsupported], [])
    else .error ([], nameErrorS)
  else if s.hardlink then
    match risremoteMatch s.dst with
    | some (g1, g2) =>
      let _pb := osPathSplit g2
      let evs : List Ev := [.sshList g1 o.sshRet]
      match pySplitVal (.pbytes o.sshStdout) (.pstr ['\n']) with
      | .error e => .error (evs, e)
      | .ok _files => .ok (evs, [])
    | none =>
      let pb := osPathSplit s.dst
      .ok ([], plinkLocal pb.1 pb.2 s.sep hanoisuf o.localDirs)
  else .ok ([], [])

/-- Pre phase (lines 713-728): run the commands in order; a non-zero exit
clears `setsuccess` and, when `skiponpreerror` is truthy, breaks out.
Returns the `(command, exit)` pairs actually run, the success flag and
whether the `for`-`else` left `goon` false (i.e. the set is skipped). -/
def preRun (f : Str → Int) (skip : Bool) :
    List Str → List (Str × Int) × Bool × Bool
  | [] => ([], true, false)
  | c :: rest =>
    let r := f c
    if r ≠ 0 then
      if skip then ([(c, r)], false, true)
      else
        let (evs, _, ab) := preRun f skip rest
        ((c, r) :: evs, false, ab)
    else
      let (evs, suc, ab) := preRun f skip rest
      ((c, r) :: evs, suc, ab)

/-- RuntimeError message for line 756 (unsupported transfer program). -/
def runtimeErrorS : Str := "RuntimeError".toList

/-- Transfer loop (lines 741-826) over the effective backup list, threading
`setsuccess`. Per entry: compute the log-file name (only when `mailto` is
set, with a `.gz` suffix iff `compresslog` is truthy), raise RuntimeError
for an unsupported program (line 755), and otherwise — unless in safe
mode — open the log sink (`gzip.open(tarlogfile, 'wb')` iff `compresslog`
truthy, line 784; both raise `TypeError` when `tarlogfile` is `None`),
run the subprocess and classify its outcome, then optionally sleep.
Returns events, the final flag and the collected `tarlogs`. First, the
log-file name of lines 743-747, defined only when `mailto` is set: -/
def tarlogName (s : BSet) (o : Oracle) (d : Str) : Option Str :=
  match s.mailto with
  | none => none
  | some _ =>
    some (o.tmpdir ++ ['/'] ++ slugify (s.name ++ ['-'] ++ d)
      ++ ".log".toList
      ++ (if pyTruthyCompress s.compresslog then ".gz".toList else []))

/-- The transfer loop itself (see the comment above `tarlogName`). -/
def transferLoop (safe : Bool) (s : BSet) (o : Oracle) (plink : List Str)
    (hanoisuf : Str) (tmpfile : Option Str) :
    List Str → Bool → Except (List Ev × Str) (List Ev × Bool × List (Option Str))
  | [], suc => .ok ([], suc, [])
  | d :: rest, suc =>
    if s.program ≠ "rsync".toList ∧ s.program ≠ "rclone".toList then
      .error ([], runtimeErrorS)
    else if safe then
      match transferLoop safe s o plink hanoisuf tmpfile rest suc with
      | .error e => .error (.transferPlan (buildCmd s plink hanoisuf tmpfile d) :: e.1, e.2)
      | .ok (evs, suc2, tl) =>
        .ok (.transferPlan (buildCmd s plink hanoisuf tmpfile d) :: evs, suc2, tl)
    else
      match tarlogName s o d with
      | none => .error ([], typeErrorS)
      | some tlf =>
        match transferLoop safe s o plink hanoisuf tmpfile rest
            (analyzeTransfer suc (o.transferRet d) (o.transferStderr d)) with
        | .error e =>
          .error ((Ev.transferRun (buildCmd s plink hanoisuf tmpfile d) tlf
              (pyTruthyCompress s.compresslog) (o.transferRet d)
            :: (if s.sleepSecs > 0 then [Ev.sleepSecs s.sleepSecs] else [])) ++ e.1, e.2)
        | .ok (evs, suc3, tl) =>
          .ok ((Ev.transferRun (buildCmd s plink hanoisuf tmpfile d) tlf
              (pyTruthyCompress s.compresslog) (o.transferRet d)
            :: (if s.sleepSecs > 0 then [Ev.sleepSecs s.sleepSecs] else [])) ++ evs,
            suc3, some tlf :: tl)

/-- Delete-list phase (lines 828-833); note the source has no safe-mode
guard here. -/
def deletePhase (s : BSet) (o : Oracle) (hanoisuf : Str) : List Ev :=
  s.deletelist.filterMap (fun d =>
    let deldest := s.dst ++ (if hanoisuf.length > 0 then s.sep ++ hanoisuf else [])
      ++ ['/'] ++ d
    if o.delExistsDir deldest then some (.delTree deldest) else none)

/-- Cache-update phase (lines 835-850): when the interval is set and
positive and not in safe mode, write `starttime` (as Unix seconds) to the
set's cache file — unconditionally on `setsuccess`. -/
def cachePhase (safe : Bool) (now : Int) (s : BSet) : List Ev :=
  match s.interval with
  | none => []
  | some i =>
    if i ≠ 0 ∧ 0 < i then (if safe then [] else [.cacheWrite s.name now])
    else []

/-- Symlink rotation phase (lines 852-867), for a Hanoi suffix and a
non-remote destination. `dstExists1`/`dstIsLink` drive the deletion,
`dstExists2` the re-check after it. -/
def symlinkPhase (safe : Bool) (s : BSet) (o : Oracle) (hanoisuf : Str) :
    List Ev :=
  if hanoisuf.length > 0 ∧ risremoteMatch s.dst = none then
    (if o.dstExists1 ∧ o.dstIsLink then
      (if safe then [] else [.symlinkDelete s.dst]) else [])
    ++ (if ¬ o.dstExists2 then
          (if safe then [] else [.symlinkCreate s.dst (s.dst ++ s.sep ++ hanoisuf)])
        else if ¬ safe then [.symlinkWarn s.dst] else [])
  else []

/-- Umount phase (lines 872-884). -/
def umountPhase (o : Oracle) (um : Option Str) : List Ev :=
  match um with
  | none => []
  | some m => if ¬ o.umountMounted then [] else [.umountRun m o.umountRet]

/-- Notification phase (lines 886-942): subject `"Backup of <name> OK"` or
`"... FAILED"`; each non-`None` tarlog is attached, as gzip iff
`compresslog` is truthy (lines 920-923). Skipped in safe mode. -/
def mailPhase (safe : Bool) (s : BSet) (suc : Bool)
    (tarlogs : List (Option Str)) : List Ev :=
  match s.mailto with
  | none => []
  | some _ =>
    if safe then []
    else
      [.mailSend
        ("Backup of ".toList ++ s.name ++ [' ']
          ++ (if suc then "OK".toList else "FAILED".toList))
        (tarlogs.filterMap (fun tl =>
          tl.map (fun t => (t, pyTruthyCompress s.compresslog))))]

/-- Cleanup phase (lines 944-956): unlink every non-`None` tarlog, the
datefile if created, and remove the temp directory. -/
def cleanupPhase (o : Oracle) (tarlogs : List (Option Str))
    (tmpfile : Option Str) : List Ev :=
  tarlogs.filterMap (fun tl => tl.map Ev.unlinkLog)
    ++ (match tmpfile with
        | some tf => if tf.length > 0 then [Ev.datefileUnlink tf] else []
        | none => [])
    ++ [.rmdirTmp o.tmpdir]

/-- One iteration of the `for s in sets:` loop (lines 605-956). `mnt` and
`um` are the set's optional `MOUNT`/`UMOUNT` paths; `now` is the run's
`starttime` as Unix seconds, `todayOrd` its date ordinal. -/
def execSet (safe : Bool) (now : Int) (todayOrd : Nat)
    (mnt um : Option Str) (s : BSet) (o : Oracle) : SetOutcome :=
  let mountEvs := mountPhase o mnt
  let stderrBound := match mnt with | none => false | some _ => !o.mount1Mounted
  let dfp := datefilePhase safe s o
  let day := hanoiDayNumber s.hanoiday todayOrd
  let hanoisuf := hanoiSuffix s.hanoi day
  let hanoiEvs : List Ev := if s.hanoi > 0 then [.hanoiInfo day hanoisuf] else []
  match hardlinkPhase s o stderrBound hanoisuf with
  | .error e => .exn (mountEvs ++ dfp.1 ++ hanoiEvs ++ e.1) e.2
  | .ok hl =>
    let evs0 := mountEvs ++ dfp.1 ++ hanoiEvs ++ hl.1
    let pr := preRun o.preRet s.skiponpreerror s.pre
    let evs1 := evs0 ++ pr.1.map (fun cr => Ev.preCmdRun cr.1 cr.2)
    if pr.2.2 then .skippedPre evs1
    else if s.checkdst ∧ o.dstExists ≠ some true then
      .skippedDst (evs1 ++ [.dstMissingWarn])
    else
      match transferLoop safe s o hl.2 hanoisuf dfp.2.2 dfp.2.1 pr.2.1 with
      | .error e => .exn (evs1 ++ e.1) e.2
      | .ok tr =>
        .done (evs1 ++ tr.1 ++ deletePhase s o hanoisuf ++ cachePhase safe now s
            ++ symlinkPhase safe s o hanoisuf ++ umountPhase o um
            ++ mailPhase safe s tr.2.1 tr.2.2
            ++ cleanupPhase o tr.2.2 dfp.2.2)
          tr.2.1

/-- A set together with its mount/umount paths and oracle. -/
structure SetRun where
  s : BSet
  mnt : Option Str
  um : Option Str
  o : Oracle

/-- Run the selected sets in order; an uncaught exception aborts the
remaining ones (there is no try/except around the loop). The boolean
records whether the run crashed. -/
def execAll (safe : Bool) (now : Int) (todayOrd : Nat) :
    List SetRun → List SetOutcome × Bool
  | [] => ([], false)
  | r :: rest =>
    match execSet safe now todayOrd r.mnt r.um r.s r.o with
    | .exn evs e => ([.exn evs e], true)
    | out =>
      let (outs, c) := execAll safe now todayOrd rest
      (out :: outs, c)

/-! ## PID-file lock and top-level run (jabs.py lines 466-500, 958-962)

The PID file is read and probed (lines 470-483), then overwritten with the
current PID (lines 486-492). No statement after line 492 ever references
`pidfile` again: the file is never deleted on any path. -/

/-- Lock probe of lines 470-483. The existing file is `none` (absent),
`some none` (content on which `int()` raises, swallowed by the bare
`except`), or `some (some p)`. Returns `some code` when the run exits
early, `none` when it proceeds. -/
def lockCheck (existing : Option (Option Nat)) (alive : Nat → Bool)
    (batch : Bool) : Option Int :=
  match existing with
  | none => none
  | some none => none
  | some (some p) => if alive p then (if batch then some 0 else some 12) else none

/-- Ping filter of lines 549-569: when `ping` is set and the source is
remote, keep the set iff the host answered. -/
def pingKeep (s : BSet) (o : Oracle) : Bool :=
  if s.ping && (risremoteMatch s.src).isSome then o.pingUp else true

/-- Run-wide inputs: own PID, CLI flags, wall-clock data, the PID-file
state and the liveness probe. -/
structure RunCfg where
  myPid : Nat
  batch : Bool
  force : Bool
  safe : Bool
  now : Int
  tod : Nat
  todayOrd : Nat
  pidfileState : Option (Option Nat)
  pidfileWritable : Bool
  alive : Nat → Bool

/-- Result of `Jabs.run`: exit code, the PID file at exit (`none` when the
file is absent), and the per-set outcomes. -/
structure RunResult where
  code : Int
  pidfileAfter : Option (Option Nat)
  outcomes : List SetOutcome

/-- `Jabs.run` from the lock check onwards (lines 469-962): probe the lock,
write the own PID, apply the disabled / runtime-window / interval / ping
filters, execute the surviving sets, and exit. The PID file is written at
line 491 and never touched again, so it still holds `myPid` at exit. -/
def jabsRun (cfg : RunCfg) (sets : List SetRun) : RunResult :=
  match lockCheck cfg.pidfileState cfg.alive cfg.batch with
  | some c => ⟨c, cfg.pidfileState, []⟩
  | none =>
    if ¬ cfg.pidfileWritable then ⟨15, cfg.pidfileState, []⟩
    else
      let s1 := sets.filter (fun r => !r.s.disabled)
      let s2 := if cfg.force then s1 else
        s1.filter (fun r => !(decide (r.s.runtime.1 > cfg.tod) || decide (r.s.runtime.2 < cfg.tod)))
      let s3 := if cfg.force then s2 else
        s2.filter (fun r => intervalKeep r.s.interval r.o.cacheContent cfg.now)
      let s4 := s3.filter (fun r => pingKeep r.s r.o)
      let res := execAll cfg.safe cfg.now cfg.todayOrd s4
      ⟨if res.2 then 1 else 0, some (some cfg.myPid), res.1⟩

/-! ## Outcome views and event classifiers -/

/-- The event list of an outcome. -/
def outcomeEvs : SetOutcome → List Ev
  | .done evs _ => evs
  | .skippedPre evs => evs
  | .skippedDst evs => evs
  | .exn evs _ => evs

/-- The final `setsuccess` of a completed set, `none` otherwise. -/
def outcomeSuccess : SetOutcome → Option Bool
  | .done _ suc => some suc
  | _ => none

/-- Whether the outcome is the pre-phase `continue` of line 728. -/
def outcomeIsSkippedPre : SetOutcome → Bool
  | .skippedPre _ => true
  | _ => false

/-- Whether the outcome is an uncaught exception with the given message. -/
def outcomeIsExn : SetOutcome → Str → Bool
  | .exn _ m, m2 => m == m2
  | _, _ => false

/-- Event classifier: interval-cache write. -/
def isCacheEv : Ev → Bool
  | .cacheWrite _ _ => true
  | _ => false

/-- Event classifier: transfer subprocess run. -/
def isTransferEv : Ev → Bool
  | .transferRun _ _ _ _ => true
  | _ => false

/-- Event classifier: notification email. -/
def isMailEv : Ev → Bool
  | .mailSend _ _ => true
  | _ => false

/-! ## Concrete fixtures used by witnesses and counterexamples -/

/-- A benign oracle: everything exists, every subprocess succeeds. -/
def orc0 : Oracle where
  tmpdir := "/tmp/jx".toList
  mount1Mounted := false
  mountRet := 0
  sshStdout := "total 0".toList
  sshRet := 0
  localDirs := []
  preRet := fun _ => 0
  dstExists := some true
  transferRet := fun _ => 0
  transferStderr := fun _ => []
  delExistsDir := fun _ => false
  dstExists1 := false
  dstIsLink := false
  dstExists2 := true
  umountMounted := false
  umountRet := 0
  pingUp := true
  cacheContent := none

/-- A minimal local rsync set named `Home`. -/
def bset0 : BSet where
  name := "Home".toList
  program := "rsync".toList
  backuplist := ["docs".toList]
  deletelist := []
  ionice := 0
  nice := 0
  rsync_opts := ["-a".toList]
  rclone_opts := []
  src := "/home/{dirname}/".toList
  dst := "/backup/home".toList
  sleepSecs := 0
  hanoi := 0
  hanoiday := 1
  hardlink := false
  checkdst := false
  sep := ".".toList
  pri := 0
  datefile := none
  interval := none
  ping := false
  runtime := (0, 86399)
  mailto := some ["root@example.org".toList]
  disabled := false
  pre := []
  skiponpreerror := false
  compresslog := .boolVal true

/-! # C1 — interval filter -/

/-- C1: refuted. The claim says a set with no interval configured survives
the interval filter, but the loop of lines 515-547 only appends sets inside
the `if s.interval and s.interval > timedelta(seconds=0):` branch, so every
set whose interval is unset (or zero) is dropped whenever `--force` is not
given. The first conjunct shows the unconditional drop; the remaining
conjuncts show the drop/keep behaviour for sets that do have a positive
interval (which matches the claim). -/
theorem C1_no_interval_set_is_dropped :
    (∀ (cache : Option (Option Int)) (now : Int),
        intervalKeep none cache now = false)
    ∧ (∀ (cache : Option (Option Int)) (now : Int),
        intervalKeep (some 0) cache now = false)
    ∧ intervalKeep (some 3600) (some (some 1000)) 10000 = true
    ∧ intervalKeep (some 3600) (some (some 8000)) 10000 = false :=
  ⟨fun _ _ => rfl, fun _ _ => by simp [intervalKeep], by decide, by decide⟩

/-! # C2 — lock release -/

/-- A run configuration that acquires the lock (no existing PID file). -/
def runCfg0 : RunCfg where
  myPid := 4242
  batch := false
  force := false
  safe := false
  now := 1000
  tod := 3600
  todayOrd := 738886
  pidfileState := none
  pidfileWritable := true
  alive := fun _ => false

/-- C2 counterexample: an invocation that acquires the lock (writes PID
4242) and completes normally still has its PID file present — containing
its own PID — at exit; it is never deleted, contradicting the claim that
the lock file is released on every exit path. -/
theorem C2_counterexample :
    lockCheck runCfg0.pidfileState runCfg0.alive runCfg0.batch = none
    ∧ (jabsRun runCfg0 []).code = 0
    ∧ (jabsRun runCfg0 []).pidfileAfter = some (some 4242)
    ∧ (jabsRun runCfg0 []).pidfileAfter ≠ none := by
  refine ⟨rfl, rfl, rfl, by simp [jabsRun, lockCheck, runCfg0]⟩

/-- C2 amended: on every exit path of an invocation that acquired the lock
(wrote its PID to the lock file) the lock file is *not* deleted: it remains
on disk still holding the invocation's PID, and a later invocation treats
it as stale via the PID liveness probe. -/
theorem C2_lock_file_never_deleted (cfg : RunCfg) (sets : List SetRun)
    (hacq : lockCheck cfg.pidfileState cfg.alive cfg.batch = none)
    (hw : cfg.pidfileWritable = true) :
    (jabsRun cfg sets).pidfileAfter = some (some cfg.myPid) := by
  simp [jabsRun, hacq, hw]

/-- Witness for `C2_lock_file_never_deleted` at `runCfg0`. -/
theorem C2_lock_file_never_deleted_witness :
    lockCheck runCfg0.pidfileState runCfg0.alive runCfg0.batch = none
    ∧ runCfg0.pidfileWritable = true
    ∧ (jabsRun runCfg0 []).pidfileAfter = some (some runCfg0.myPid) :=
  ⟨rfl, rfl, C2_lock_file_never_deleted runCfg0 [] rfl rfl⟩

/-! # C5 — retry-line tolerance -/

/-- `badoutput` holds iff some line misses the retry marker. -/
theorem stderrBadOutput_iff (lines : List Str) :
    stderrBadOutput lines = true ↔ ∃ l ∈ lines, hasSub wtaTok l = false := by
  simp [stderrBadOutput, List.any_eq_true]

/-- `pySplitlines` of an empty byte string has no lines. -/
theorem pySplitlines_nil : pySplitlines [] = [] := rfl

/-- C5: confirmed. Starting from a successful flag, one transfer run clears
it iff the exit code is non-zero or some stderr line lacks the substring
`(will try again)`; moreover a cleared flag stays cleared. -/
theorem C5_hard_failure_classification (ret : Int) (stderr : Str) :
    (analyzeTransfer true ret stderr = false
      ↔ (ret ≠ 0 ∨ ∃ l ∈ pySplitlines stderr, hasSub wtaTok l = false))
    ∧ analyzeTransfer false ret stderr = false := by
  have hiff := stderrBadOutput_iff (pySplitlines stderr)
  constructor
  · unfold analyzeTransfer
    by_cases h0 : ret = 0 <;> by_cases hlen : stderr.length = 0 <;>
      by_cases hbad : stderrBadOutput (pySplitlines stderr) = true
    all_goals
      first
      | (have hnil : stderr = [] := List.length_eq_zero.mp hlen
         subst hnil
         simp_all [pySplitlines_nil])
      | simp_all
  · simp [analyzeTransfer]

/-! # C10 — COMPRESSLOG is a raw string -/

/-- C10: confirmed. The configured COMPRESSLOG value is kept as a (stripped)
string and only tested for truthiness: any value that strips to a non-empty
string — including `false`, `no` and `0` — enables the gzip sink; only an
(effectively) empty value disables it; an absent key defaults to enabled.
The last two conjuncts connect the flag to the log sink chosen in the
transfer loop and to the gzip attachments of the notification email. -/
theorem C10_compresslog_truthiness :
    (∀ v : Str,
        pyTruthyCompress (compresslogOfConfig (some v)) = !(pyStrip v).isEmpty)
    ∧ pyTruthyCompress (compresslogOfConfig none) = true
    ∧ pyTruthyCompress (compresslogOfConfig (some "false".toList)) = true
    ∧ pyTruthyCompress (compresslogOfConfig (some "no".toList)) = true
    ∧ pyTruthyCompress (compresslogOfConfig (some "0".toList)) = true
    ∧ pyTruthyCompress (compresslogOfConfig (some [])) = false
    ∧ (∀ (s : BSet) (o : Oracle) (plink : List Str) (suf : Str)
        (tmpf : Option Str) (bl : List Str) (suc : Bool) (evs : List Ev)
        (suc2 : Bool) (logs : List (Option Str)),
        transferLoop false s o plink suf tmpf bl suc = .ok (evs, suc2, logs) →
        ∀ argv lf gz ret, Ev.transferRun argv lf gz ret ∈ evs →
          gz = pyTruthyCompress s.compresslog)
    ∧ (∀ (safe : Bool) (s : BSet) (suc : Bool) (logs : List (Option Str))
        (subj : Str) (atts : List (Str × Bool)),
        Ev.mailSend subj atts ∈ mailPhase safe s suc logs →
        ∀ a b, (a, b) ∈ atts → b = pyTruthyCompress s.compresslog) := by
  refine ⟨fun v => rfl, rfl, by decide, by decide, by decide, by decide, ?_, ?_⟩
  · intro s o plink suf tmpf bl
    induction bl with
    | nil =>
      intro suc evs suc2 logs h argv lf gz ret hmem
      simp only [transferLoop] at h
      cases h
      simp at hmem
    | cons d rest ih =>
      intro suc evs suc2 logs h argv lf gz ret hmem
      simp only [transferLoop] at h
      split at h
      · simp at h
      · split at h
        · simp_all
        · split at h
          · simp at h
          · split at h
            · simp at h
            · rename_i heq
              injection h with h2
              injection h2 with hevs h3
              subst hevs
              rcases List.mem_append.mp hmem with hmem1 | hmem2
              · rcases List.mem_cons.mp hmem1 with he | hs
                · cases he; rfl
                · split at hs <;> simp at hs
              · exact ih _ _ _ _ heq argv lf gz ret hmem2
  · intro safe s suc logs subj atts hmem a b hab
    unfold mailPhase at hmem
    split at hmem
    · simp at hmem
    · split at hmem
      · simp at hmem
      · rcases List.mem_singleton.mp hmem with h
        cases h
        rcases List.mem_filterMap.mp hab with ⟨tl, _, htl⟩
        cases tl with
        | none => simp at htl
        | some t => simp at htl; exact htl.2.symm

/-! # C6 — the Hanoi rotation -/

/-- Characterisation of the downward scan: it stops at the largest
`i ≤ k` dividing the day by `2^i`, i.e. at the first `i` encountered
walking down from `k`. -/
theorem hanoiSufAux_spec (day : Int) (k : Nat) :
    ∃ i, i ≤ k ∧ hanoiSufAux day k = [Char.ofNat (i + 65)]
      ∧ day % (2 ^ i : Int) = 0
      ∧ ∀ j, i < j → j ≤ k → day % (2 ^ j : Int) ≠ 0 := by
  induction k with
  | zero =>
    refine ⟨0, le_refl 0, ?_, ?_, ?_⟩
    · simp [hanoiSufAux]
    · simp
    · intro j h1 h2; omega
  | succ k ih =>
    by_cases h : day % (2 ^ (k + 1) : Int) = 0
    · refine ⟨k + 1, le_refl _, ?_, h, ?_⟩
      · simp [hanoiSufAux, h]
      · intro j h1 h2; omega
    · rcases ih with ⟨i, hik, heq, hdvd, hmax⟩
      refine ⟨i, Nat.le_succ_of_le hik, ?_, hdvd, ?_⟩
      · simpa [hanoiSufAux, h] using heq
      · intro j h1 h2
        rcases Nat.lt_or_ge j (k + 1) with hj | hj
        · exact hmax j h1 (Nat.lt_succ_iff.mp hj)
        · have : j = k + 1 := Nat.le_antisymm h2 hj
          subst this; exact h

/-- C6: confirmed. For `sets ≥ 1` and `firstDay ≤ today`, the Hanoi block
computes `day = (today - firstDay).days + 1 ≥ 1` and yields the suffix
`chr(i + 65)` for the first `i` walking down from `sets` to `0` with
`day mod 2^i == 0`, which is always a letter in `A..chr(65+sets)`; with
epoch 2024-01-01 and `sets = 3` the days 2024-01-01, 2024-01-02 and
2024-01-08 yield `(1, "A")`, `(2, "B")` and `(8, "D")`. -/
theorem C6_hanoi_rotation (sets firstOrd todayOrd : Nat)
    (hs : 1 ≤ sets) (hd : firstOrd ≤ todayOrd) :
    (∃ i, i ≤ sets
      ∧ hanoiPair sets firstOrd todayOrd
          = (hanoiDayNumber firstOrd todayOrd, [Char.ofNat (i + 65)])
      ∧ 1 ≤ hanoiDayNumber firstOrd todayOrd
      ∧ hanoiDayNumber firstOrd todayOrd % (2 ^ i : Int) = 0
      ∧ ∀ j, i < j → j ≤ sets →
          hanoiDayNumber firstOrd todayOrd % (2 ^ j : Int) ≠ 0)
    ∧ hanoiPair 3 (dateOrdinal 2024 1 1) (dateOrdinal 2024 1 1) = (1, "A".toList)
    ∧ hanoiPair 3 (dateOrdinal 2024 1 1) (dateOrdinal 2024 1 2) = (2, "B".toList)
    ∧ hanoiPair 3 (dateOrdinal 2024 1 1) (dateOrdinal 2024 1 8) = (8, "D".toList) := by
  refine ⟨?_, by decide, by decide, by decide⟩
  rcases hanoiSufAux_spec (hanoiDayNumber firstOrd todayOrd) sets with
    ⟨i, hik, heq, hdvd, hmax⟩
  refine ⟨i, hik, ?_, ?_, hdvd, hmax⟩
  · unfold hanoiPair hanoiSuffix
    rw [if_pos (by omega : sets > 0), heq]
  · unfold hanoiDayNumber
    omega

/-- Witness for `C6_hanoi_rotation` at `sets = 3`, epoch 2024-01-01,
today 2024-01-08. -/
theorem C6_hanoi_rotation_witness :
    (1 ≤ 3 ∧ dateOrdinal 2024 1 1 ≤ dateOrdinal 2024 1 8)
    ∧ ((∃ i, i ≤ 3
      ∧ hanoiPair 3 (dateOrdinal 2024 1 1) (dateOrdinal 2024 1 8)
          = (hanoiDayNumber (dateOrdinal 2024 1 1) (dateOrdinal 2024 1 8),
             [Char.ofNat (i + 65)])
      ∧ 1 ≤ hanoiDayNumber (dateOrdinal 2024 1 1) (dateOrdinal 2024 1 8)
      ∧ hanoiDayNumber (dateOrdinal 2024 1 1) (dateOrdinal 2024 1 8) % (2 ^ i : Int) = 0
      ∧ ∀ j, i < j → j ≤ 3 →
          hanoiDayNumber (dateOrdinal 2024 1 1) (dateOrdinal 2024 1 8) % (2 ^ j : Int) ≠ 0)
    ∧ hanoiPair 3 (dateOrdinal 2024 1 1) (dateOrdinal 2024 1 1) = (1, "A".toList)
    ∧ hanoiPair 3 (dateOrdinal 2024 1 1) (dateOrdinal 2024 1 2) = (2, "B".toList)
    ∧ hanoiPair 3 (dateOrdinal 2024 1 1) (dateOrdinal 2024 1 8) = (8, "D".toList)) :=
  ⟨⟨by decide, by decide⟩,
   C6_hanoi_rotation 3 (dateOrdinal 2024 1 1) (dateOrdinal 2024 1 8)
     (by decide) (by decide)⟩

/-! # C9 — remote ancestor discovery -/

/-- A hard-linking set with a remote destination `u@h:/b/x`. -/
def c9set : BSet :=
  { bset0 with dst := "u@h:/b/x".toList, hardlink := true }

/-- C9: refuted by the code (code bug). For a remote destination with
hard-linking enabled, line 679 evaluates `stdout.split('\n')` on the
*bytes* returned by `communicate()` with a *str* separator, which raises
`TypeError` no matter what the ssh listing produced or how it exited; the
exception is uncaught, so ancestor discovery aborts the set (and the whole
invocation) instead of logging a warning and yielding an empty list. -/
theorem C9_remote_listing_raises :
    execSet false 1000 738886 none none c9set orc0
      = .exn [.sshList "u@h".toList 0] typeErrorS
    ∧ (∀ o : Oracle, execSet false 1000 738886 none none c9set o
        = .exn [.sshList "u@h".toList o.sshRet] typeErrorS)
    ∧ (∀ o : Oracle, ∀ rest : List SetRun,
        (execAll false 1000 738886 (⟨c9set, none, none, o⟩ :: rest)).2 = true) := by
  have hrm : risremoteMatch c9set.dst
      = some ("u@h".toList, "/b/x".toList) := by decide
  have hgen : ∀ o : Oracle, execSet false 1000 738886 none none c9set o
      = .exn [.sshList "u@h".toList o.sshRet] typeErrorS := by
    intro o
    unfold execSet hardlinkPhase
    rw [hrm]
    simp [c9set, bset0, mountPhase, datefilePhase, hanoiSuffix, pySplitVal]
  refine ⟨hgen orc0, hgen, ?_⟩
  intro o rest
  unfold execAll
  rw [hgen o]

/-! # C3 — pre-command failures

Helper lemmas about `preRun`, the failure monotonicity of the transfer
loop, and the event constructors each phase can emit. -/

/-- The pre loop aborts the set iff `skiponpreerror` is truthy and some
command failed (the `break` of line 724 is the only way `goon` stays
false). -/
theorem preRun_aborted (f : Str → Int) (skip : Bool) (cmds : List Str) :
    (preRun f skip cmds).2.2 = (skip && cmds.any (fun c => decide (f c ≠ 0))) := by
  cases skip with
  | false =>
    induction cmds with
    | nil => simp [preRun]
    | cons c rest ih => by_cases h : f c = 0 <;> simp [preRun, h, ih]
  | true =>
    induction cmds with
    | nil => simp [preRun]
    | cons c rest ih => by_cases h : f c = 0 <;> simp [preRun, h, ih]

/-- A failing pre-command clears `setsuccess` for good. -/
theorem preRun_failed (f : Str → Int) (skip : Bool) (cmds : List Str)
    (h : cmds.any (fun c => decide (f c ≠ 0)) = true) :
    (preRun f skip cmds).2.1 = false := by
  induction cmds with
  | nil => simp at h
  | cons c rest ih =>
    by_cases hc : f c = 0
    · have hrest : rest.any (fun c => decide (f c ≠ 0)) = true := by
        simpa [hc] using h
      simp [preRun, hc, ih hrest]
    · by_cases hs : skip <;> simp [preRun, hc, hs]

/-- A cleared flag is never restored by `analyzeTransfer`. -/
theorem analyzeTransfer_false (ret : Int) (stderr : Str) :
    analyzeTransfer false ret stderr = false := by
  simp [analyzeTransfer]

/-- A cleared flag is never restored by the transfer loop. -/
theorem transferLoop_false (safe : Bool) (s : BSet) (o : Oracle)
    (plink : List Str) (suf : Str) (tmpf : Option Str) :
    ∀ (bl : List Str) (evs : List Ev) (suc2 : Bool) (logs : List (Option Str)),
      transferLoop safe s o plink suf tmpf bl false = .ok (evs, suc2, logs) →
      suc2 = false := by
  intro bl
  induction bl with
  | nil =>
    intro evs suc2 logs h
    simp only [transferLoop] at h
    cases h; rfl
  | cons d rest ih =>
    intro evs suc2 logs h
    simp only [transferLoop] at h
    split at h
    · simp at h
    · split at h
      · split at h
        · simp at h
        · injection h with h2
          injection h2 with h3 h4
          injection h4 with h5 h6
          rename_i heq
          exact h5 ▸ ih _ _ _ heq
      · split at h
        · simp at h
        · split at h
          · simp at h
          · injection h with h2
            injection h2 with h3 h4
            injection h4 with h5 h6
            rename_i heq
            rw [analyzeTransfer_false] at heq
            exact h5 ▸ ih _ _ _ heq

/-- Mount events are neither mail, transfer nor cache writes. -/
theorem mountPhase_class (o : Oracle) (mnt : Option Str) :
    ∀ e ∈ mountPhase o mnt,
      isMailEv e = false ∧ isTransferEv e = false ∧ isCacheEv e = false := by
  intro e he
  unfold mountPhase at he
  split at he
  · simp at he
  · split at he <;> (simp at he; subst he; exact ⟨rfl, rfl, rfl⟩)

/-- Datefile events are neither mail, transfer nor cache writes. -/
theorem datefilePhase_class (safe : Bool) (s : BSet) (o : Oracle) :
    ∀ e ∈ (datefilePhase safe s o).1,
      isMailEv e = false ∧ isTransferEv e = false ∧ isCacheEv e = false := by
  intro e he
  unfold datefilePhase at he
  split at he
  · simp at he
  · split at he
    · simp at he
    · simp at he; subst he; exact ⟨rfl, rfl, rfl⟩

/-- The optional Hanoi log event is neither mail, transfer nor cache. -/
theorem hanoiEv_class (c : Prop) [Decidable c] (day : Int) (suf : Str) :
    ∀ e ∈ (if c then [Ev.hanoiInfo day suf] else ([] : List Ev)),
      isMailEv e = false ∧ isTransferEv e = false ∧ isCacheEv e = false := by
  intro e he
  split at he
  · simp at he; subst he; exact ⟨rfl, rfl, rfl⟩
  · simp at he

/-- Ancestor-discovery events (warning or ssh listing) are neither mail,
transfer nor cache writes. -/
theorem hardlinkPhase_ok_class (s : BSet) (o : Oracle) (sb : Bool)
    (suf : Str) (hl : List Ev) (pl : List Str)
    (h : hardlinkPhase s o sb suf = .ok (hl, pl)) :
    ∀ e ∈ hl,
      isMailEv e = false ∧ isTransferEv e = false ∧ isCacheEv e = false := by
  intro e he
  unfold hardlinkPhase at h
  split at h
  · split at h
    · injection h with h2
      injection h2 with h3 h4
      subst h3
      simp at he; subst he; exact ⟨rfl, rfl, rfl⟩
    · simp at h
  · split at h
    · split at h
      · split at h
        · simp at h
        · injection h with h2
          injection h2 with h3 h4
          subst h3
          simp at he; subst he; exact ⟨rfl, rfl, rfl⟩
      · simp only at h
        injection h with h2
        injection h2 with h3 h4
        subst h3
        simp at he
    · injection h with h2
      injection h2 with h3 h4
      subst h3
      simp at he

/-- Pre-command events are neither mail, transfer nor cache writes. -/
theorem preEvsMap_class (l : List (Str × Int)) :
    ∀ e ∈ l.map (fun cr => Ev.preCmdRun cr.1 cr.2),
      isMailEv e = false ∧ isTransferEv e = false ∧ isCacheEv e = false := by
  intro e he
  rcases List.mem_map.mp he with ⟨cr, _, rfl⟩
  exact ⟨rfl, rfl, rfl⟩

/-- Transfer-loop events are never mail or cache writes. -/
theorem transferLoop_ok_class (safe : Bool) (s : BSet) (o : Oracle)
    (plink : List Str) (suf : Str) (tmpf : Option Str) :
    ∀ (bl : List Str) (suc : Bool) (evs : List Ev) (suc2 : Bool)
      (logs : List (Option Str)),
      transferLoop safe s o plink suf tmpf bl suc = .ok (evs, suc2, logs) →
      ∀ e ∈ evs, isMailEv e = false ∧ isCacheEv e = false := by
  intro bl
  induction bl with
  | nil =>
    intro suc evs suc2 logs h e he
    simp only [transferLoop] at h
    cases h; simp at he
  | cons d rest ih =>
    intro suc evs suc2 logs h e he
    simp only [transferLoop] at h
    split at h
    · simp at h
    · split at h
      · split at h
        · simp at h
        · rename_i heq
          injection h with h2
          injection h2 with h3 h4
          subst h3
          rcases List.mem_cons.mp he with rfl | he2
          · exact ⟨rfl, rfl⟩
          · exact ih _ _ _ _ heq e he2
      · split at h
        · simp at h
        · split at h
          · simp at h
          · rename_i heq
            injection h with h2
            injection h2 with h3 h4
            subst h3
            rcases List.mem_append.mp he with he1 | he2
            · rcases List.mem_cons.mp he1 with rfl | he3
              · exact ⟨rfl, rfl⟩
              · split at he3 <;> simp at he3
                subst he3; exact ⟨rfl, rfl⟩
            · exact ih _ _ _ _ heq e he2

/-- Delete-list events are never transfer, mail or cache writes. -/
theorem deletePhase_class (s : BSet) (o : Oracle) (suf : Str) :
    ∀ e ∈ deletePhase s o suf,
      isMailEv e = false ∧ isTransferEv e = false ∧ isCacheEv e = false := by
  intro e he
  rcases List.mem_filterMap.mp he with ⟨d, _, hd⟩
  simp at hd
  rcases hd with ⟨_, he2⟩
  subst he2
  exact ⟨rfl, rfl, rfl⟩

/-- Symlink-rotation events are never transfer or cache writes. -/
theorem symlinkPhase_class (safe : Bool) (s : BSet) (o : Oracle) (suf : Str) :
    ∀ e ∈ symlinkPhase safe s o suf,
      isTransferEv e = false ∧ isCacheEv e = false := by
  intro e he
  unfold symlinkPhase at he
  split at he
  · rcases List.mem_append.mp he with he1 | he2
    · split at he1
      · split at he1 <;> simp at he1
        subst he1; exact ⟨rfl, rfl⟩
      · simp at he1
    · split at he2
      · split at he2 <;> simp at he2
        subst he2; exact ⟨rfl, rfl⟩
      · split at he2 <;> simp at he2
        subst he2; exact ⟨rfl, rfl⟩
  · simp at he

/-- Umount events are never transfer or cache writes. -/
theorem umountPhase_class (o : Oracle) (um : Option Str) :
    ∀ e ∈ umountPhase o um, isTransferEv e = false ∧ isCacheEv e = false := by
  intro e he
  unfold umountPhase at he
  split at he
  · simp at he
  · split at he <;> simp at he
    subst he; exact ⟨rfl, rfl⟩

/-- Mail events are never transfer or cache writes. -/
theorem mailPhase_class (safe : Bool) (s : BSet) (suc : Bool)
    (tarlogs : List (Option Str)) :
    ∀ e ∈ mailPhase safe s suc tarlogs,
      isTransferEv e = false ∧ isCacheEv e = false := by
  intro e he
  unfold mailPhase at he
  split at he
  · simp at he
  · split at he
    · simp at he
    · simp at he; subst he; exact ⟨rfl, rfl⟩

/-- Cleanup events are never transfer or cache writes. -/
theorem cleanupPhase_class (o : Oracle) (tarlogs : List (Option Str))
    (tmpf : Option Str) :
    ∀ e ∈ cleanupPhase o tarlogs tmpf,
      isTransferEv e = false ∧ isCacheEv e = false := by
  intro e he
  unfold cleanupPhase at he
  rcases List.mem_append.mp he with he1 | he2
  · rcases List.mem_append.mp he1 with he3 | he4
    · rcases List.mem_filterMap.mp he3 with ⟨tl, _, htl⟩
      cases tl with
      | none => simp at htl
      | some t => simp at htl; subst htl; exact ⟨rfl, rfl⟩
    · split at he4
      · split at he4 <;> simp at he4
        subst he4; exact ⟨rfl, rfl⟩
      · simp at he4
  · simp at he2; subst he2; exact ⟨rfl, rfl⟩

/-- C3 amended: if some pre-command fails, the set is marked failed and it
is aborted iff `skipOnPreError` is truthy; when aborted, the `continue` of
line 728 skips the rest of the set body, so *no* notification email is
sent (and no transfer is spawned) for that set — contrary to the original
claim — while subsequent sets still execute; when not aborted, the set
proceeds but its success flag can never recover. -/
theorem C3_pre_command_failure (now : Int) (tOrd : Nat) (mnt um : Option Str)
    (s : BSet) (o : Oracle) (hl : List Ev) (pl : List Str)
    (hfail : s.pre.any (fun c => decide (o.preRet c ≠ 0)) = true)
    (hhl : hardlinkPhase s o
        (match mnt with | none => false | some _ => !o.mount1Mounted)
        (hanoiSuffix s.hanoi (hanoiDayNumber s.hanoiday tOrd)) = .ok (hl, pl)) :
    (preRun o.preRet s.skiponpreerror s.pre).2.1 = false
    ∧ outcomeIsSkippedPre (execSet false now tOrd mnt um s o) = s.skiponpreerror
    ∧ (s.skiponpreerror = true →
        ∀ e ∈ outcomeEvs (execSet false now tOrd mnt um s o),
          isMailEv e = false ∧ isTransferEv e = false)
    ∧ (∀ (bl : List Str) (evs : List Ev) (suc2 : Bool)
        (logs : List (Option Str)),
        transferLoop false s o pl
          (hanoiSuffix s.hanoi (hanoiDayNumber s.hanoiday tOrd))
          (datefilePhase false s o).2.2 bl false = .ok (evs, suc2, logs) →
        suc2 = false)
    ∧ (s.skiponpreerror = true → ∀ r2 : SetRun,
        (execAll false now tOrd [⟨s, mnt, um, o⟩, r2]).1
          = execSet false now tOrd mnt um s o
              :: (execAll false now tOrd [r2]).1) := by
  have hab : (preRun o.preRet s.skiponpreerror s.pre).2.2 = s.skiponpreerror := by
    rw [preRun_aborted, hfail, Bool.and_true]
  refine ⟨preRun_failed o.preRet s.skiponpreerror s.pre hfail, ?_, ?_, ?_, ?_⟩
  · cases hskip : s.skiponpreerror with
    | true =>
      have hab2 : (preRun o.preRet s.skiponpreerror s.pre).2.2 = true := by
        rw [hab, hskip]
      simp only [execSet, hhl, hab2, reduceIte]
      rfl
    | false =>
      have hab2 : (preRun o.preRet s.skiponpreerror s.pre).2.2 = false := by
        rw [hab, hskip]
      simp only [execSet, hhl, hab2]
      split
      · rename_i hcon; simp at hcon
      · split
        · rfl
        · split
          · rfl
          · rfl
  · intro hskip e he
    have hab2 : (preRun o.preRet s.skiponpreerror s.pre).2.2 = true := by
      rw [hab, hskip]
    simp only [execSet, hhl, hab2, reduceIte, outcomeEvs] at he
    rcases List.mem_append.mp he with he0 | hepre
    · rcases List.mem_append.mp he0 with he1 | hehl
      · rcases List.mem_append.mp he1 with he2 | heh
        · rcases List.mem_append.mp he2 with hem | hed
          · rcases mountPhase_class o mnt e hem with ⟨a, b, _⟩
            exact ⟨a, b⟩
          · rcases datefilePhase_class false s o e hed with ⟨a, b, _⟩
            exact ⟨a, b⟩
        · rcases hanoiEv_class _ _ _ e heh with ⟨a, b, _⟩
          exact ⟨a, b⟩
      · rcases hardlinkPhase_ok_class s o _ _ hl pl hhl e hehl with ⟨a, b, _⟩
        exact ⟨a, b⟩
    · rcases preEvsMap_class _ e hepre with ⟨a, b, _⟩
      exact ⟨a, b⟩
  · intro bl evs suc2 logs h
    exact transferLoop_false false s o pl _ _ bl evs suc2 logs h
  · intro hskip r2
    have hab2 : (preRun o.preRet s.skiponpreerror s.pre).2.2 = true := by
      rw [hab, hskip]
    have hexec : execSet false now tOrd mnt um s o
        = .skippedPre (mountPhase o mnt ++ (datefilePhase false s o).1
            ++ (if s.hanoi > 0 then
                  [Ev.hanoiInfo (hanoiDayNumber s.hanoiday tOrd)
                    (hanoiSuffix s.hanoi (hanoiDayNumber s.hanoiday tOrd))]
                else [])
            ++ hl
            ++ (preRun o.preRet s.skiponpreerror s.pre).1.map
                (fun cr => Ev.preCmdRun cr.1 cr.2)) := by
      simp only [execSet, hhl, hab2, reduceIte]
    simp only [execAll, hexec]

/-- A set with a failing pre-command and `skipOnPreError` truthy. -/
def c3set : BSet :=
  { bset0 with pre := ["/bin/false".toList], skiponpreerror := true }

/-- The oracle under which the single pre-command exits 1. -/
def c3orc : Oracle := { orc0 with preRet := fun _ => 1 }

/-- C3 counterexample: with `mailTo` configured, `pre_01` failing and
`skipOnPreError` set, the set is aborted and its event trace contains *no*
`mailSend` at all — the claimed FAILED notification email is never sent. -/
theorem C3_counterexample :
    c3set.mailto ≠ none
    ∧ c3set.skiponpreerror = true
    ∧ execSet false 1000 738886 none none c3set c3orc
        = .skippedPre [.preCmdRun "/bin/false".toList 1]
    ∧ (outcomeEvs (execSet false 1000 738886 none none c3set c3orc)).any
        isMailEv = false := by
  refine ⟨by decide, rfl, by decide, by decide⟩

/-- Witness for `C3_pre_command_failure` at `c3set`/`c3orc`. -/
theorem C3_pre_command_failure_witness :
    (preRun c3orc.preRet c3set.skiponpreerror c3set.pre).2.1 = false :=
  (C3_pre_command_failure 1000 738886 none none c3set c3orc [] []
    (by decide) (by rfl)).1

/-! # C4 — interval-cache write -/

/-- For a positive interval and no safe mode, the cache phase is exactly
one write of `starttime`. -/
theorem cachePhase_pos (now : Int) (s : BSet) (i : Int)
    (hi : s.interval = some i) (h0 : i ≠ 0) (hp : 0 < i) :
    cachePhase false now s = [Ev.cacheWrite s.name now] := by
  unfold cachePhase
  rw [hi]
  simp [h0, hp]

/-- C4 amended: for every executed (not aborted) set with a positive
interval, in a non-safe run the cache timestamp is written exactly once,
after the transfer loop (every transfer event precedes it, none follows) —
but it is written *regardless of the set's success flag*, not only on
success as originally claimed. -/
theorem C4_cache_write_position (now : Int) (tOrd : Nat)
    (mnt um : Option Str) (s : BSet) (o : Oracle) (i : Int)
    (hi : s.interval = some i) (h0 : i ≠ 0) (hp : 0 < i)
    (evs : List Ev) (suc : Bool)
    (hdone : execSet false now tOrd mnt um s o = .done evs suc) :
    ∃ l₁ l₂, evs = l₁ ++ Ev.cacheWrite s.name now :: l₂
      ∧ (∀ e ∈ l₁, isCacheEv e = false)
      ∧ (∀ e ∈ l₂, isCacheEv e = false)
      ∧ (∀ e ∈ l₂, isTransferEv e = false) := by
  simp only [execSet] at hdone
  split at hdone
  · simp at hdone
  · rename_i hlpair heqhl
    split at hdone
    · simp at hdone
    · split at hdone
      · simp at hdone
      · split at hdone
        · simp at hdone
        · rename_i tr heqtr
          injection hdone with hevs hsuc
          subst hevs
          refine ⟨(mountPhase o mnt ++ (datefilePhase false s o).1
              ++ (if s.hanoi > 0 then
                    [Ev.hanoiInfo (hanoiDayNumber s.hanoiday tOrd)
                      (hanoiSuffix s.hanoi (hanoiDayNumber s.hanoiday tOrd))]
                  else [])
              ++ hlpair.1
              ++ (preRun o.preRet s.skiponpreerror s.pre).1.map
                  (fun cr => Ev.preCmdRun cr.1 cr.2))
              ++ tr.1
              ++ deletePhase s o (hanoiSuffix s.hanoi (hanoiDayNumber s.hanoiday tOrd)),
            symlinkPhase false s o (hanoiSuffix s.hanoi (hanoiDayNumber s.hanoiday tOrd))
              ++ umountPhase o um ++ mailPhase false s tr.2.1 tr.2.2
              ++ cleanupPhase o tr.2.2 (datefilePhase false s o).2.2, ?_, ?_, ?_, ?_⟩
          · rw [cachePhase_pos now s i hi h0 hp]
            simp [List.append_assoc]
          · intro e he
            rcases List.mem_append.mp he with he1 | hedel
            · rcases List.mem_append.mp he1 with he2 | hetr
              · rcases List.mem_append.mp he2 with he3 | hepre
                · rcases List.mem_append.mp he3 with he4 | hehl
                  · rcases List.mem_append.mp he4 with he5 | heh
                    · rcases List.mem_append.mp he5 with hem | hed
                      · exact (mountPhase_class o mnt e hem).2.2
                      · exact (datefilePhase_class false s o e hed).2.2
                    · exact (hanoiEv_class _ _ _ e heh).2.2
                  · exact (hardlinkPhase_ok_class s o _ _ hlpair.1 hlpair.2
                      heqhl e hehl).2.2
                · exact (preEvsMap_class _ e hepre).2.2
              · exact (transferLoop_ok_class false s o hlpair.2 _ _ _ _ _ _ _
                  heqtr e hetr).2
            · exact (deletePhase_class s o _ e hedel).2.2
          · intro e he
            rcases List.mem_append.mp he with he1 | heclean
            · rcases List.mem_append.mp he1 with he2 | hemail
              · rcases List.mem_append.mp he2 with hesym | heum
                · exact (symlinkPhase_class false s o _ e hesym).2
                · exact (umountPhase_class o um e heum).2
              · exact (mailPhase_class false s _ _ e hemail).2
            · exact (cleanupPhase_class o _ _ e heclean).2
          · intro e he
            rcases List.mem_append.mp he with he1 | heclean
            · rcases List.mem_append.mp he1 with he2 | hemail
              · rcases List.mem_append.mp he2 with hesym | heum
                · exact (symlinkPhase_class false s o _ e hesym).1
                · exact (umountPhase_class o um e heum).1
              · exact (mailPhase_class false s _ _ e hemail).1
            · exact (cleanupPhase_class o _ _ e heclean).1

/-- A set with a one-hour interval. -/
def c4set : BSet := { bset0 with interval := some 3600 }

/-- The oracle under which the transfer subprocess exits 23. -/
def c4orc : Oracle := { orc0 with transferRet := fun _ => 23 }

/-- C4 counterexample: with `interval = 1h` and a transfer that exits 23,
the set completes with `setsuccess = False`, yet the interval-cache
timestamp is written anyway — the write is not conditional on success as
the claim states. -/
theorem C4_counterexample :
    c4set.interval = some 3600
    ∧ outcomeSuccess (execSet false 1000 738886 none none c4set c4orc)
        = some false
    ∧ (outcomeEvs (execSet false 1000 738886 none none c4set c4orc)).any
        isCacheEv = true := by
  refine ⟨rfl, by decide, by decide⟩

/-- Witness for `C4_cache_write_position` at `c4set`/`c4orc`. -/
theorem C4_cache_write_position_witness :
    ∃ l₁ l₂, outcomeEvs (execSet false 1000 738886 none none c4set c4orc)
        = l₁ ++ Ev.cacheWrite c4set.name 1000 :: l₂
      ∧ (∀ e ∈ l₁, isCacheEv e = false)
      ∧ (∀ e ∈ l₂, isCacheEv e = false)
      ∧ (∀ e ∈ l₂, isTransferEv e = false) :=
  C4_cache_write_position 1000 738886 none none c4set c4orc 3600 rfl
    (by decide) (by decide)
    (outcomeEvs (execSet false 1000 738886 none none c4set c4orc)) false
    (by rfl)

/-! # C7 — template substitution

`rpat.sub` (line 759) replaces `{setname}` in the option strings; `rdir`
is applied only to `src` and `dst` (lines 765-766), never to the options.
The lemmas below show that when the replacement text shares no character
with the token, the replaced string has no occurrence of the token left. -/

/-- An occurrence of a non-empty `n` cannot start inside a block whose
characters are all foreign to `n`. -/
theorem hasSub_append_of_disjoint (n w t : Str) (hn : n ≠ [])
    (hd : ∀ c ∈ w, c ∉ n) (h : hasSub n (w ++ t) = true) :
    hasSub n t = true := by
  induction w with
  | nil => simpa using h
  | cons a w' ih =>
    have hd' : ∀ c ∈ w', c ∉ n := fun c hc => hd c (List.mem_cons_of_mem a hc)
    rcases n with _ | ⟨c, n'⟩
    · exact absurd rfl hn
    · simp only [List.cons_append, hasSub, Bool.or_eq_true] at h
      rcases h with hp | hrest
      · exfalso
        simp only [pfx, Bool.and_eq_true, beq_iff_eq] at hp
        exact hd a (List.mem_cons_self a w') (hp.1 ▸ List.mem_cons_self c n')
      · exact ih hd' hrest

/-- If a remainder `n'` of the token is read off `replaceAll`'s output and
the replacement text is non-empty and foreign to `n`, the same remainder
is read off the original input. -/
theorem pfx_replaceAll (n r : Str) (hr : r ≠ []) (hd : ∀ c ∈ r, c ∉ n) :
    ∀ (rest n' : Str), n' ≠ [] → (∀ c ∈ n', c ∈ n) →
      pfx n' (replaceAll n r rest) = true → pfx n' rest = true := by
  intro rest
  induction rest with
  | nil =>
    intro n' hne _ h
    rcases n' with _ | ⟨c, n''⟩
    · exact absurd rfl hne
    · rw [replaceAll_nil] at h
      simp [pfx] at h
  | cons b rest₂ ih =>
    intro n' hne hsub h
    rcases n' with _ | ⟨c, n''⟩
    · exact absurd rfl hne
    · rw [replaceAll_cons] at h
      split at h
      · exfalso
        rcases r with _ | ⟨rc, r'⟩
        · exact absurd rfl hr
        · simp only [List.cons_append, pfx, Bool.and_eq_true, beq_iff_eq] at h
          exact hd rc (List.mem_cons_self rc r')
            (h.1 ▸ hsub c (List.mem_cons_self c n''))
      · simp only [pfx, Bool.and_eq_true, beq_iff_eq] at h ⊢
        rcases h with ⟨rfl, hp⟩
        refine ⟨rfl, ?_⟩
        rcases n'' with _ | ⟨c2, n₃⟩
        · rfl
        · exact ih (c2 :: n₃) (by simp)
            (fun x hx => hsub x (List.mem_cons_of_mem c hx)) hp

/-- Fuel-indexed main lemma: the output of `replaceAll` has no occurrence
of the token when the replacement is non-empty and foreign to it. -/
theorem hasSub_replaceAll_aux (n r : Str) (hn : n ≠ []) (hr : r ≠ [])
    (hd : ∀ c ∈ r, c ∉ n) :
    ∀ (k : Nat) (s : Str), s.length ≤ k →
      hasSub n (replaceAll n r s) = false := by
  intro k
  induction k with
  | zero =>
    intro s hs
    have : s = [] := List.eq_nil_of_length_eq_zero (Nat.le_zero.mp hs)
    subst this
    rw [replaceAll_nil]
    rcases n with _ | ⟨c, n'⟩
    · exact absurd rfl hn
    · rfl
  | succ k ih =>
    intro s hs
    rcases s with _ | ⟨a, rest⟩
    · rw [replaceAll_nil]
      rcases n with _ | ⟨c, n'⟩
      · exact absurd rfl hn
      · rfl
    · rw [replaceAll_cons]
      split
      · rename_i hmatch
        have hlen : (rest.drop (n.length - 1)).length ≤ k := by
          simp only [List.length_drop]
          have := Nat.succ_le_succ_iff.mp (by simpa using hs)
          omega
        by_contra hcon
        rw [Bool.not_eq_false] at hcon
        have := hasSub_append_of_disjoint n r _ hn hd hcon
        rw [ih _ hlen] at this
        exact Bool.noConfusion this
      · rename_i hmatch
        have hT := ih rest (Nat.succ_le_succ_iff.mp (by simpa using hs))
        rcases n with _ | ⟨c, n'⟩
        · exact absurd rfl hn
        · simp only [hasSub, Bool.or_eq_true, hT, Bool.or_false]
          by_contra hcon
          rw [Bool.not_eq_false] at hcon
          simp only [pfx, Bool.and_eq_true, beq_iff_eq] at hcon
          rcases hcon with ⟨rfl, hp⟩
          apply hmatch
          constructor
          · simp
          · show pfx (c :: n') (c :: rest) = true
            have htail : pfx n' rest = true := by
              rcases n' with _ | ⟨c2, n₃⟩
              · rfl
              · exact pfx_replaceAll (c :: c2 :: n₃) r hr hd rest (c2 :: n₃)
                  (by simp) (fun x hx => List.mem_cons_of_mem c hx) hp
            simp [pfx, htail]

/-- No occurrence of the token survives `replaceAll` when the replacement
is non-empty and shares no character with the token. -/
theorem hasSub_replaceAll (n r : Str) (hn : n ≠ []) (hr : r ≠ [])
    (hd : ∀ c ∈ r, c ∉ n) (s : Str) :
    hasSub n (replaceAll n r s) = false :=
  hasSub_replaceAll_aux n r hn hr hd s.length s (Nat.le_refl _)

/-- C7 amended: in the option list only `{setname}` is substituted (by the
lowercased set name); every option string appears in the assembled argv
with its `{setname}` occurrences replaced — and, provided the lowercased
set name is non-empty and shares no character with the token `{setname}`,
no `{setname}` token remains in it. `{dirname}` tokens in option strings
are *not* substituted (the original claim fails there; `{dirname}` is
substituted only into `src` and `dst`). -/
theorem C7_setname_substitution (s : BSet) (plink : List Str)
    (hanoisuf : Str) (tmpfile : Option Str) (d : Str)
    (hname : ∀ c ∈ lowerStr s.name, c ∉ setnameTok)
    (hne : lowerStr s.name ≠ []) :
    ∀ opt ∈ (if s.program == "rsync".toList then s.rsync_opts
             else s.rclone_opts),
      replaceAll setnameTok (lowerStr s.name) opt
          ∈ buildCmd s plink hanoisuf tmpfile d
      ∧ hasSub setnameTok
          (replaceAll setnameTok (lowerStr s.name) opt) = false := by
  intro opt hopt
  constructor
  · have hmem : replaceAll setnameTok (lowerStr s.name) opt
        ∈ (if s.program == "rsync".toList then s.rsync_opts
           else s.rclone_opts).map
            (fun x => replaceAll setnameTok (lowerStr s.name) x) :=
      List.mem_map_of_mem _ hopt
    unfold buildCmd
    exact List.mem_append_right _ (List.mem_append_left _
      (List.mem_append_left _ (List.mem_cons_of_mem _ hmem)))
  · exact hasSub_replaceAll setnameTok (lowerStr s.name)
      (by decide) hne hname opt

/-- A set whose rsync options contain a `{dirname}` token. -/
def c7set : BSet :=
  { bset0 with rsync_opts := ["--exclude={dirname}/tmp".toList] }

/-- C7 counterexample: an option string containing `{dirname}` yields an
assembled argv that still contains a `{dirname}` token — only `{setname}`
is substituted in option strings (line 759), so the claim fails. -/
theorem C7_counterexample :
    hasSub dirnameTok "--exclude={dirname}/tmp".toList = true
    ∧ "--exclude={dirname}/tmp".toList ∈ c7set.rsync_opts
    ∧ (buildCmd c7set [] [] none "docs".toList).any
        (fun a => hasSub dirnameTok a) = true := by
  refine ⟨by decide, by decide, by decide⟩

/-- A set named `Pix` (whose lowercase shares no character with the token
`{setname}`) carrying an option that mentions the token. -/
def c7wset : BSet :=
  { bset0 with name := "Pix".toList, rsync_opts := ["-o={setname}".toList] }

/-- Witness for `C7_setname_substitution` at `c7wset`. -/
theorem C7_setname_substitution_witness :
    replaceAll setnameTok (lowerStr c7wset.name) "-o={setname}".toList
        ∈ buildCmd c7wset [] [] none "docs".toList
    ∧ hasSub setnameTok
        (replaceAll setnameTok (lowerStr c7wset.name)
          "-o={setname}".toList) = false :=
  C7_setname_substitution c7wset [] [] none "docs".toList
    (by decide) (by decide) "-o={setname}".toList (by decide)

/-! # C8 — local hard-link ancestor discovery

The name filter of line 692 appends the same separator to both sides of
the comparison, so it degenerates to a plain prefix test on `base`. -/

/-- `pfx` agrees with a truncate-and-compare test. -/
theorem pfx_iff_take (base : Str) :
    ∀ d : Str, pfx base d = true ↔ d.take base.length = base := by
  induction base with
  | nil => intro d; simp [pfx]
  | cons b bs ih =>
    intro d
    cases d with
    | nil => simp [pfx]
    | cons a d' =>
      simp only [pfx, Bool.and_eq_true, beq_iff_eq, List.length_cons,
        List.take_succ_cons, List.cons.injEq, ih d']
      constructor
      · rintro ⟨rfl, h⟩; exact ⟨rfl, h⟩
      · rintro ⟨rfl, h⟩; exact ⟨rfl, h⟩

/-- The source's name filter accepts exactly the names with prefix `base`:
the `+ s.sep` on both sides of line 692 cancels. -/
theorem psetNameOk_iff (base sep d : Str) :
    psetNameOk base sep d = true ↔ pfx base d = true := by
  unfold psetNameOk
  simp only [Bool.or_eq_true, beq_iff_eq, pfx_iff_take]
  constructor
  · rintro (rfl | h)
    · simp
    · exact List.append_cancel_right h
  · intro h
    exact Or.inr (by rw [h])

/-- C8 amended: the hard-link list contains exactly
`path + "/" + e.name` for the listed children `e` whose name has *prefix*
`base` (not necessarily `base + sep`: the separator appended to both sides
of the comparison cancels), that are directories per lstat, and whose name
differs from `base + sep + suffix`; the excluded current-generation
directory never appears; the underlying entries are sorted by modification
time, newest first. -/
theorem C8_local_ancestors (path base sep suf : Str)
    (dirs : List DirEntry) :
    (∀ x, x ∈ plinkLocal path base sep suf dirs ↔
      ∃ e ∈ dirs, pfx base e.name = true ∧ e.isDir = true
        ∧ e.name ≠ base ++ sep ++ suf ∧ x = path ++ ['/'] ++ e.name)
    ∧ path ++ ['/'] ++ (base ++ sep ++ suf)
        ∉ plinkLocal path base sep suf dirs
    ∧ List.Pairwise ageR
        ((localPsets base sep dirs).filter
          (fun p => p.name ≠ base ++ sep ++ suf)) := by
  have hmem : ∀ x, x ∈ plinkLocal path base sep suf dirs ↔
      ∃ e ∈ dirs, pfx base e.name = true ∧ e.isDir = true
        ∧ e.name ≠ base ++ sep ++ suf ∧ x = path ++ ['/'] ++ e.name := by
    intro x
    unfold plinkLocal localPsets
    rw [List.mem_map]
    constructor
    · rintro ⟨e, hee, rfl⟩
      rw [List.mem_filter] at hee
      rcases hee with ⟨hsort, hne⟩
      rw [(List.perm_insertionSort ageR _).mem_iff, List.mem_filter] at hsort
      rcases hsort with ⟨hdirs, hok⟩
      rw [Bool.and_eq_true] at hok
      refine ⟨e, hdirs, (psetNameOk_iff base sep e.name).mp hok.1, hok.2,
        ?_, rfl⟩
      simpa using hne
    · rintro ⟨e, hdirs, hpfx, hdir, hne, rfl⟩
      refine ⟨e, ?_, rfl⟩
      rw [List.mem_filter]
      constructor
      · rw [(List.perm_insertionSort ageR _).mem_iff, List.mem_filter]
        constructor
        · exact hdirs
        · rw [Bool.and_eq_true]
          exact ⟨(psetNameOk_iff base sep e.name).mpr hpfx, hdir⟩
      · simpa using hne
  refine ⟨hmem, ?_, ?_⟩
  · intro hin
    rcases (hmem _).mp hin with ⟨e, _, _, _, hne, heq⟩
    exact hne (List.append_cancel_left heq.symm)
  · exact List.Pairwise.filter _
      (List.sorted_insertionSort ageR
        (dirs.filter (fun d => psetNameOk base sep d.name && d.isDir)))

/-- The listing used in the C8 counterexample: `homeX` is a directory
whose name extends `base` without the separator. -/
def c8dirs : List DirEntry :=
  [⟨"homeX".toList, true, 5⟩, ⟨"home.A".toList, true, 9⟩,
   ⟨"home.B".toList, false, 7⟩]

/-- C8 counterexample: with `dst = /backup/home`, `sep = "."` and current
suffix `A`, the child `homeX` — which is neither `home` nor prefixed by
`home.` — is accepted by the filter of line 692 and ends up in the
hard-link list, contradicting the claimed characterisation. -/
theorem C8_counterexample :
    plinkLocal "/backup".toList "home".toList ".".toList "A".toList c8dirs
        = ["/backup/homeX".toList]
    ∧ "homeX".toList ≠ "home".toList
    ∧ pfx ("home".toList ++ ".".toList) "homeX".toList = false := by
  refine ⟨by decide, by decide, by decide⟩

end JabsModel
